import Mathlib

/-!
Verification of the cachelayer repository's cache-consistency engine.

Shallow embedding of:
  * `jsonSerializer.go`  — `RedisJson` (per-key JSON cache) and `RedisHashJson`
    (hash-per-collection cache);
  * `fullRedisCache.go`  — `FullRedisCache` (whole-collection cache);
  * `mongoredis/redismongo.go` — `RedisMongo` (Mongo-backed coordinator with
    index-aware invalidation).

Go strings are Lean `String`s; `strings.ToLower` is modelled character-wise.
Go `error` values are `Err := String`; fallible calls return `Except Err`.
Redis and Mongo are modelled explicitly: Redis key/value and hash state are
functions from keys to optional values, external calls whose outcomes the
source inspects are supplied by "world" records of oracles, and every
operation additionally returns the list of side effects it performed, in
order, so that invalidation and write behaviour can be stated exactly.
The serialization codec is external to the repository, so it is abstract:
a pair of `marshal`/`unmarshal` functions carried in the world record.

Base helpers of the repository (`IsNullID`, `MakeCacheKey`, `Indexes.Merge`,
`UniqueStrings`, `Stringify`) live in files of this repository that are not
part of the sources given here; they are modelled from the spec and marked
as such in their doc comments.
-/

set_option autoImplicit false

/-- Go `error` values, abstracted to their message. -/
abbrev Err := String

/-- Character-wise lower-casing, modelling Go's `strings.ToLower`
(ASCII case mapping suffices for the properties proved here). -/
def strToLower (s : String) : String :=
  ⟨s.data.map Char.toLower⟩

/-- Modelled from the spec: an `Index` is "an ordered mapping of field
name → value representing one secondary lookup path" (values already
stringified). The repository's `Index` type is not among the given sources. -/
abbrev Index := List (String × String)

/-- Modelled from the spec: `IsNullID` for string-shaped IDs — the
"null-ID-as-zero-value sentinel", i.e. the empty string. The repository's
`IsNullID` is not among the given sources. -/
def IsNullID (id : String) : Bool :=
  id = ""

/-- Modelled from the spec: per-entity/per-index cache key
`{prefix}/{table}/{field}/{value}`, case-normalized (lowercased),
slash-delimited. The repository's `CacheBase.MakeCacheKey` is not among
the given sources. -/
def MakeCacheKey (pfx table : String) (idx : Index) : String :=
  strToLower (idx.foldl (fun acc fv => acc ++ "/" ++ fv.1 ++ "/" ++ fv.2) (pfx ++ "/" ++ table))

/-- Modelled from the spec: `Indexes.Merge` forms the deduplicated union of
two index lists ("invalidation set = indexKeys(oldE) ∪ indexKeys(newE),
deduplicated"). The repository's `Indexes.Merge` is not among the given
sources. -/
def Indexes.Merge (a b : List Index) : List Index :=
  a ++ b.filter (fun i => !(decide (i ∈ a)))

/-- Helper for `UniqueStrings`: drop elements already seen, keeping first
occurrences. -/
def uniqueStringsAux (seen : List String) : List String → List String
  | [] => []
  | x :: xs =>
    if x ∈ seen then uniqueStringsAux seen xs
    else x :: uniqueStringsAux (x :: seen) xs

/-- Modelled from the spec: `UniqueStrings` deduplicates a list of cache
keys. The repository's `UniqueStrings` is not among the given sources. -/
def UniqueStrings (xs : List String) : List String :=
  uniqueStringsAux [] xs

theorem mem_uniqueStringsAux (seen : List String) (xs : List String) (y : String) :
    y ∈ uniqueStringsAux seen xs ↔ y ∈ xs ∧ y ∉ seen := by
  induction xs generalizing seen with
  | nil => simp [uniqueStringsAux]
  | cons x xs ih =>
    by_cases hx : x ∈ seen
    · simp only [uniqueStringsAux, if_pos hx, ih, List.mem_cons]
      constructor
      · rintro ⟨h1, h2⟩; exact ⟨Or.inr h1, h2⟩
      · rintro ⟨h1 | h1, h2⟩
        · exact absurd (h1 ▸ hx) h2
        · exact ⟨h1, h2⟩
    · simp only [uniqueStringsAux, if_neg hx, List.mem_cons, ih]
      constructor
      · rintro (rfl | ⟨h1, h2⟩)
        · exact ⟨Or.inl rfl, hx⟩
        · exact ⟨Or.inr h1, fun hy => h2 (Or.inr hy)⟩
      · rintro ⟨rfl | h1, h2⟩
        · exact Or.inl rfl
        · by_cases hyx : y = x
          · exact Or.inl hyx
          · exact Or.inr ⟨h1, fun hy => hy.elim hyx h2⟩

theorem nodup_uniqueStringsAux (seen : List String) (xs : List String) :
    (uniqueStringsAux seen xs).Nodup := by
  induction xs generalizing seen with
  | nil => simp [uniqueStringsAux]
  | cons x xs ih =>
    by_cases hx : x ∈ seen
    · simpa [uniqueStringsAux, if_pos hx] using ih seen
    · simp only [uniqueStringsAux, if_neg hx, List.nodup_cons]
      refine ⟨fun hmem => ?_, ih (x :: seen)⟩
      exact ((mem_uniqueStringsAux _ _ _).mp hmem).2 (List.mem_cons_self x seen)

theorem mem_UniqueStrings (xs : List String) (y : String) :
    y ∈ UniqueStrings xs ↔ y ∈ xs := by
  simp [UniqueStrings, mem_uniqueStringsAux]

theorem nodup_UniqueStrings (xs : List String) : (UniqueStrings xs).Nodup :=
  nodup_uniqueStringsAux [] xs

theorem mem_Indexes_Merge (a b : List Index) (i : Index) :
    i ∈ Indexes.Merge a b ↔ i ∈ a ∨ i ∈ b := by
  simp only [Indexes.Merge, List.mem_append, List.mem_filter]
  constructor
  · rintro (h | ⟨h, _⟩)
    · exact Or.inl h
    · exact Or.inr h
  · rintro (h | h)
    · exact Or.inl h
    · by_cases ha : i ∈ a
      · exact Or.inl ha
      · exact Or.inr ⟨h, by simpa using ha⟩

theorem strToLower_append (a b : String) :
    strToLower (a ++ b) = strToLower a ++ strToLower b := by
  cases a with
  | mk da =>
    cases b with
    | mk db =>
      show String.mk ((da ++ db).map Char.toLower)
          = String.mk (da.map Char.toLower) ++ String.mk (db.map Char.toLower)
      rw [List.map_append]
      rfl

/-- `FullRedisCache.CacheKey` from `fullRedisCache.go`:
`strings.ToLower(s.prefix + "/" + s.table + "/full")`. -/
def FullRedisCache.CacheKey (pfx table : String) : String :=
  strToLower (pfx ++ "/" ++ table ++ "/full")

/-- Claim C9: for every prefix and table, the whole-collection cache key is
the deterministic, lowercased, slash-delimited string `{prefix}/{table}/full`,
and identical inputs always yield an identical key. -/
theorem FullRedisCache.cacheKey_format_deterministic (pfx table : String) :
    FullRedisCache.CacheKey pfx table
      = strToLower pfx ++ "/" ++ strToLower table ++ "/full"
    ∧ (∀ pfx' table', pfx = pfx' → table = table' →
        FullRedisCache.CacheKey pfx table = FullRedisCache.CacheKey pfx' table') := by
  constructor
  · show strToLower (pfx ++ "/" ++ table ++ "/full") = _
    rw [strToLower_append, strToLower_append, strToLower_append]
    have h1 : strToLower "/" = "/" := by decide
    have h2 : strToLower "/full" = "/full" := by decide
    rw [h1, h2]
  · rintro pfx' table' rfl rfl
    rfl

/-- Claim C9 witness: the key formula and determinism evaluated at a
concrete prefix and table. -/
theorem FullRedisCache.cacheKey_format_deterministic_witness :
    FullRedisCache.CacheKey "Cache" "Users"
      = strToLower "Cache" ++ "/" ++ strToLower "Users" ++ "/full"
    ∧ (∀ pfx' table', "Cache" = pfx' → "Users" = table' →
        FullRedisCache.CacheKey "Cache" "Users" = FullRedisCache.CacheKey pfx' table') :=
  FullRedisCache.cacheKey_format_deterministic "Cache" "Users"

/-! ## RedisJson: per-key JSON cache (`jsonSerializer.go`) -/

/-- The Redis string key space: key → stored text value.  Time-to-live is
not part of the state; all properties below concern reads "before expiry". -/
abbrev KV := String → Option String

/-- Point update of the key/value state (`SETEX key value ttl`). -/
def kvSet (st : KV) (k v : String) : KV :=
  fun k' => if k' = k then some v else st k'

/-- The serialization codec, external to the repository (`Serializer`
interface).  `unmarshal` returns the decoded value together with an optional
error, mirroring Go's `Unmarshal(data, &r)` which passes `r` back alongside
`err`. -/
structure RJWorld (T : Type) where
  marshal : T → Except Err String
  unmarshal : String → T × Option Err

/-- Side effects of `RedisJson` operations on the cache store, in order. -/
inductive KVEffect where
  | setEX (key value : String)
  | mset (pairs : List (String × String))
  | expire (key : String)
  deriving DecidableEq

/-- `RedisJson.GetJson`: `GET key`; `redis.Nil` means `(zero, false, nil)`;
otherwise unmarshal and return `(r, true, err)`.  (Connection failures of
`GET` are not injected in this model; the `redis.Nil` branch is the `none`
case.) -/
def RedisJson.GetJson {T : Type} [Inhabited T] (w : RJWorld T) (st : KV) (key : String) :
    T × Bool × Option Err :=
  match st key with
  | none => (default, false, none)
  | some y =>
    let (r, e) := w.unmarshal y
    (r, true, e)

/-- `RedisJson.SetJson`: marshal, abort on marshal error, else `SETEX`. -/
def RedisJson.SetJson {T : Type} (w : RJWorld T) (st : KV) (key : String) (obj : T) :
    Except Err Unit × KV × List KVEffect :=
  match w.marshal obj with
  | .error e => (.error e, st, [])
  | .ok y => (.ok (), kvSet st key y, [.setEX key y])

/-- `RedisJson.SetNull`: store the reserved absent sentinel `"null"`. -/
def RedisJson.SetNull (st : KV) (key : String) : Except Err Unit × KV × List KVEffect :=
  (.ok (), kvSet st key "null", [.setEX key "null"])

/-- Marshal every value of the batch in order, aborting at the first
failure (the loop body of `MSetJson` before any write happens). -/
def RedisJson.marshalAll {T : Type} (w : RJWorld T) :
    List (String × T) → Except Err (List (String × String))
  | [] => .ok []
  | (k, v) :: rest =>
    match w.marshal v with
    | .error e => .error e
    | .ok y =>
      match RedisJson.marshalAll w rest with
      | .error e => .error e
      | .ok tail => .ok ((k, y) :: tail)

/-- Write a list of already-marshalled pairs into the key/value state
(`MSET`). -/
def kvMSet (st : KV) : List (String × String) → KV
  | [] => st
  | (k, y) :: rest => kvMSet (kvSet st k y) rest

/-- `RedisJson.Expires`: pipeline one `EXPIRE` per key (TTL refresh only;
no value change in this model). -/
def RedisJson.Expires (keys : List String) : Except Err Unit × List KVEffect :=
  (.ok (), keys.map (fun k => KVEffect.expire k))

/-- `RedisJson.MSetJson`: empty batch is a no-op; otherwise marshal every
value first (any failure aborts before any write), then a single bulk
`MSET`, then `Expires` on all keys as a second step. -/
def RedisJson.MSetJson {T : Type} (w : RJWorld T) (st : KV) (pairs : List (String × T)) :
    Except Err Unit × KV × List KVEffect :=
  match pairs with
  | [] => (.ok (), st, [])
  | _ :: _ =>
    match RedisJson.marshalAll w pairs with
    | .error e => (.error e, st, [])
    | .ok jpairs =>
      let (r, fx) := RedisJson.Expires (pairs.map (fun p => p.1))
      (r, kvMSet st jpairs, KVEffect.mset jpairs :: fx)

/-- Claim C8: for every key and every serializable entity (one whose
marshalled form unmarshals back to itself with no error), `SetJson` followed
by `GetJson` before expiry returns `(E, true, nil)`. -/
theorem RedisJson.set_get_roundtrip {T : Type} [Inhabited T] (w : RJWorld T)
    (st : KV) (key : String) (obj : T) (y : String)
    (hm : w.marshal obj = .ok y) (hu : w.unmarshal y = (obj, none)) :
    RedisJson.GetJson w (RedisJson.SetJson w st key obj).2.1 key = (obj, true, none) := by
  simp only [RedisJson.SetJson, hm]
  simp [RedisJson.GetJson, kvSet, hu]

/-- Claim C8 witness: round trip at a concrete codec, state, key and
entity. -/
theorem RedisJson.set_get_roundtrip_witness :
    RedisJson.GetJson ⟨fun s => .ok s, fun s => (s, none)⟩
        (RedisJson.SetJson (T := String) ⟨fun s => .ok s, fun s => (s, none)⟩
          (fun _ => none) "k" "ent37").2.1 "k"
      = ("ent37", true, none) :=
  RedisJson.set_get_roundtrip ⟨fun s => .ok s, fun s => (s, none)⟩
    (fun _ => none) "k" "ent37" "ent37" rfl rfl

/-- Claim C2 (as the code actually behaves): after `SetNull`, a `GetJson`
before expiry finds the literal `"null"`, unmarshals it to the zero value
with no error — Go's JSON decoder treats `null` as a no-op — and returns
`found = true`, not `found = false` as claimed: `GetJson` has no check for
the sentinel. -/
theorem RedisJson.getJson_after_setNull_found_true {T : Type} [Inhabited T]
    (w : RJWorld T) (st : KV) (key : String)
    (hnull : w.unmarshal "null" = (default, none)) :
    RedisJson.GetJson w (RedisJson.SetNull st key).2.1 key
      = ((default : T), true, none) := by
  simp [RedisJson.GetJson, RedisJson.SetNull, kvSet, hnull]

/-- Claim C2 witness: the sentinel read back at a concrete codec, state and
key reports `found = true`. -/
theorem RedisJson.getJson_after_setNull_found_true_witness :
    RedisJson.GetJson (T := String)
        ⟨fun s => .ok s, fun s => (if s = "null" then "" else s, none)⟩
        (RedisJson.SetNull (fun _ => none) "k").2.1 "k"
      = ("", true, none) :=
  RedisJson.getJson_after_setNull_found_true
    ⟨fun s => .ok s, fun s => (if s = "null" then "" else s, none)⟩
    (fun _ => none) "k" (by decide)

/-- Claim C7: `MSetJson` marshals every value before writing anything — if
any value fails to serialize, it returns an error with the state unchanged
and no cache effect at all; if every value serializes, it performs exactly
one bulk `MSET` of all pairs followed by one `EXPIRE` per key as a second
step. -/
theorem RedisJson.msetJson_serialize_first_then_bulk_then_ttl {T : Type}
    (w : RJWorld T) (st : KV) (pairs : List (String × T)) (hne : pairs ≠ []) :
    ((∃ e, RedisJson.marshalAll w pairs = .error e) →
      ∃ e, RedisJson.MSetJson w st pairs = (.error e, st, []))
    ∧ (∀ jpairs, RedisJson.marshalAll w pairs = .ok jpairs →
        RedisJson.MSetJson w st pairs
          = (.ok (), kvMSet st jpairs,
              KVEffect.mset jpairs :: (pairs.map (fun p => p.1)).map (fun k => KVEffect.expire k))) := by
  constructor
  · rintro ⟨e, he⟩
    refine ⟨e, ?_⟩
    match pairs, hne with
    | p :: rest, _ => simp [RedisJson.MSetJson, he]
  · intro jpairs hok
    match pairs, hne with
    | p :: rest, _ => simp [RedisJson.MSetJson, hok, RedisJson.Expires]

/-- Claim C7 witness: both branches evaluated on concrete batches — a batch
with a failing value writes nothing, a clean batch performs the bulk write
and then the per-key expiries. -/
theorem RedisJson.msetJson_serialize_first_then_bulk_then_ttl_witness :
    ((∃ e, RedisJson.marshalAll (T := Nat)
        ⟨fun n => if n = 0 then .error "bad" else .ok (toString n), fun s => (s.toNat!, none)⟩
        [("a", 1), ("b", 0)] = .error e) →
      ∃ e, RedisJson.MSetJson
        ⟨fun n => if n = 0 then .error "bad" else .ok (toString n), fun s => (s.toNat!, none)⟩
        (fun _ => none) [("a", 1), ("b", 0)] = (.error e, (fun _ => none), []))
    ∧ (∀ jpairs, RedisJson.marshalAll (T := Nat)
        ⟨fun n => if n = 0 then .error "bad" else .ok (toString n), fun s => (s.toNat!, none)⟩
        [("a", 1), ("b", 0)] = .ok jpairs →
        RedisJson.MSetJson
          ⟨fun n => if n = 0 then .error "bad" else .ok (toString n), fun s => (s.toNat!, none)⟩
          (fun _ => none) [("a", 1), ("b", 0)]
          = (.ok (), kvMSet (fun _ => none) jpairs,
              KVEffect.mset jpairs
                :: ([("a", 1), ("b", 0)].map (fun p : String × Nat => p.1)).map
                      (fun k => KVEffect.expire k))) :=
  RedisJson.msetJson_serialize_first_then_bulk_then_ttl
    ⟨fun n => if n = 0 then .error "bad" else .ok (toString n), fun s => (s.toNat!, none)⟩
    (fun _ => none) [("a", 1), ("b", 0)] (by decide)

/-! ## FullRedisCache: whole-collection cache (`fullRedisCache.go`) -/

/-- Redis hash key space: key → optional hash (field → value association
list, first binding wins on lookup). -/
abbrev RedisSt := String → Option (List (String × String))

/-- `HSET` semantics on one hash: set a field, overwriting an existing
binding or appending a fresh one. -/
def hashSetField (fields : List (String × String)) (f v : String) : List (String × String) :=
  if (fields.lookup f).isSome then
    fields.map (fun p => if p.1 = f then (f, v) else p)
  else fields ++ [(f, v)]

/-- `HSET key args` merges the argument pairs into the existing hash (it
does not clear absent fields). -/
def hashMerge (fields : List (String × String)) (args : List (String × String)) :
    List (String × String) :=
  args.foldl (fun acc p => hashSetField acc p.1 p.2) fields

/-- Read one field of one hash (`HGET`); `none` is `redis.Nil`. -/
def hgetRaw (st : RedisSt) (key field : String) : Option String :=
  (st key).bind (fun fields => fields.lookup field)

/-- The world of a `FullRedisCache[T, I]`: entity accessors, codec, backend
oracles and configuration.  The backend (`FullDBCache`) and codec are
external; their outcomes are supplied as oracles. -/
structure FRWorld (T I V : Type) where
  getID : T → I
  stringifyID : I → String
  isNullID : I → Bool
  marshal : T → Except Err String
  unmarshal : String → T × Option Err
  dbListAll : Except Err (List T)
  dbCreate : T → Except Err Unit
  dbSave : T → Except Err Unit
  dbUpdate : I → V → Except Err Int
  dbDelete : List I → Except Err Int
  pfx : String
  table : String

/-- Side effects of `FullRedisCache` operations: backend calls and cache
store commands, in execution order. -/
inductive FREffect (T I V : Type) where
  | dbListAll
  | dbCreate (t : T)
  | dbSave (t : T)
  | dbUpdate (id : I) (v : V)
  | dbDelete (ids : List I)
  | redisExists (key : String)
  | redisHGet (key : String) (field : String)
  | redisHMGet (key : String) (fields : List String)
  | redisHSet (key : String) (args : List (String × String))
  | redisExpire (key : String)

/-- `RedisHashJson.HSetJson`'s marshalling loop: build the flat `HSET`
argument list `id₀, json₀, id₁, json₁, …`, aborting at the first marshal
failure before any write. -/
def RedisHashJson.HSetJsonArgs {T I V : Type} (w : FRWorld T I V) :
    List T → Except Err (List (String × String))
  | [] => .ok []
  | t :: ts =>
    match w.marshal t with
    | .error e => .error e
    | .ok y =>
      match RedisHashJson.HSetJsonArgs w ts with
      | .error e => .error e
      | .ok rest => .ok ((w.stringifyID (w.getID t), y) :: rest)

/-- `FullRedisCache.load`: `db.ListAll()`, abort on error; `HSetJson` the
rows into the collection hash (a no-op without a write when there are no
rows), abort on marshal error; then `EXPIRE` the hash.  Cache store
connection failures are not injected: `HSET`/`EXPIRE` themselves succeed. -/
def FullRedisCache.load {T I V : Type} (w : FRWorld T I V) (st : RedisSt) :
    Except Err Unit × RedisSt × List (FREffect T I V) :=
  let key := FullRedisCache.CacheKey w.pfx w.table
  match w.dbListAll with
  | .error e => (.error e, st, [.dbListAll])
  | .ok rows =>
    match rows with
    | [] => (.ok (), st, [.dbListAll, .redisExpire key])
    | _ :: _ =>
      match RedisHashJson.HSetJsonArgs w rows with
      | .error e => (.error e, st, [.dbListAll])
      | .ok args =>
        let st' : RedisSt :=
          fun k => if k = key then some (hashMerge ((st key).getD []) args) else st k
        (.ok (), st', [.dbListAll, .redisHSet key args, .redisExpire key])

/-- `RedisHashJson.HGetJson`: `HGET key id`; `redis.Nil` → `(zero, false,
nil)`; otherwise unmarshal and return `(r, true, err)`. -/
def RedisHashJson.HGetJson {T I V : Type} [Inhabited T] (w : FRWorld T I V)
    (st : RedisSt) (key : String) (id : I) : T × Bool × Option Err :=
  match hgetRaw st key (w.stringifyID id) with
  | none => (default, false, none)
  | some raw =>
    let (r, e) := w.unmarshal raw
    (r, true, e)

/-- `FullRedisCache.Get`: `HGetJson`; an error returns `(r, false, err)`;
a hit returns `(r, true, nil)`; a miss triggers `load()` and re-reads the
freshly loaded snapshot, returning `HGetJson`'s raw triple. -/
def FullRedisCache.Get {T I V : Type} [Inhabited T] (w : FRWorld T I V)
    (st : RedisSt) (id : I) :
    (T × Bool × Option Err) × RedisSt × List (FREffect T I V) :=
  let key := FullRedisCache.CacheKey w.pfx w.table
  let first := RedisHashJson.HGetJson w st key id
  match first with
  | (r, _, some e) => ((r, false, some e), st, [.redisHGet key (w.stringifyID id)])
  | (r, true, none) => ((r, true, none), st, [.redisHGet key (w.stringifyID id)])
  | (_, false, none) =>
    match FullRedisCache.load w st with
    | (.error e, st', tr) =>
      ((default, false, some e), st', .redisHGet key (w.stringifyID id) :: tr)
    | (.ok _, st', tr) =>
      (RedisHashJson.HGetJson w st' key id, st',
        .redisHGet key (w.stringifyID id) :: tr ++ [.redisHGet key (w.stringifyID id)])

/-- Outcome of a Go call that may panic: either a normal return or a
runtime panic. -/
inductive GoRes (α : Type) where
  | ret (a : α)
  | panic
  deriving DecidableEq

/-- The decode loop of `RedisHashJson.HMGetJson`: each raw value is cast
with `v.(string)` — a nil interface (absent hash field) makes that type
assertion panic; an unmarshal error returns the rows decoded so far with a
nil error. -/
def RedisHashJson.HMGetDecode {T I V : Type} (w : FRWorld T I V) (acc : List T) :
    List (Option String) → GoRes (List T × Option Err)
  | [] => .ret (acc.reverse, none)
  | none :: _ => .panic
  | some raw :: rest =>
    match w.unmarshal raw with
    | (_, some _) => .ret (acc.reverse, none)
    | (t, none) => RedisHashJson.HMGetDecode w (t :: acc) rest

/-- `RedisHashJson.HMGetJson`: empty id list returns `nil, nil`; otherwise
`HMGET` all stringified ids (absent fields yield nil entries) and run the
decode loop. -/
def RedisHashJson.HMGetJson {T I V : Type} (w : FRWorld T I V) (st : RedisSt)
    (key : String) (ids : List I) : GoRes (List T × Option Err) :=
  match ids with
  | [] => .ret ([], none)
  | _ :: _ =>
    let raws := ids.map (fun id => hgetRaw st key (w.stringifyID id))
    RedisHashJson.HMGetDecode w [] raws

/-- `FullRedisCache.List` (named `ListIds` here because `List` would shadow
the list type inside the namespace): `EXISTS` on the collection key; if
absent, `load()` (aborting on its error); then `HMGetJson` for the
requested ids. -/
def FullRedisCache.ListIds {T I V : Type} (w : FRWorld T I V) (st : RedisSt)
    (ids : List I) :
    GoRes (List T × Option Err) × RedisSt × List (FREffect T I V) :=
  let key := FullRedisCache.CacheKey w.pfx w.table
  let idStrs := ids.map (fun id => w.stringifyID id)
  if (st key).isSome then
    (RedisHashJson.HMGetJson w st key ids, st, [.redisExists key, .redisHMGet key idStrs])
  else
    match FullRedisCache.load w st with
    | (.error e, st', tr) => (.ret ([], some e), st', .redisExists key :: tr)
    | (.ok _, st', tr) =>
      (RedisHashJson.HMGetJson w st' key ids, st',
        .redisExists key :: tr ++ [.redisHMGet key idStrs])

/-- `FullRedisCache.Create`: backend insert first, abort on its error;
on success return `load()`'s result (its error is surfaced). -/
def FullRedisCache.Create {T I V : Type} (w : FRWorld T I V) (st : RedisSt) (t : T) :
    Except Err Unit × RedisSt × List (FREffect T I V) :=
  match w.dbCreate t with
  | .error e => (.error e, st, [.dbCreate t])
  | .ok _ =>
    match FullRedisCache.load w st with
    | (r, st', tr) => (r, st', .dbCreate t :: tr)

/-- `FullRedisCache.Save`: probe with `Get` (its error aborts); null-ID or
absent → backend `Create`, else backend `Save`; abort on the backend error;
then call `load()` discarding its result and return nil. -/
def FullRedisCache.Save {T I V : Type} [Inhabited T] (w : FRWorld T I V)
    (st : RedisSt) (t : T) :
    Except Err Unit × RedisSt × List (FREffect T I V) :=
  match FullRedisCache.Get w st (w.getID t) with
  | ((_, _, some e), st1, tr1) => (.error e, st1, tr1)
  | ((_, ex, none), st1, tr1) =>
    if w.isNullID (w.getID t) || !ex then
      match w.dbCreate t with
      | .error e => (.error e, st1, tr1 ++ [.dbCreate t])
      | .ok _ =>
        match FullRedisCache.load w st1 with
        | (_, st2, tr2) => (.ok (), st2, tr1 ++ .dbCreate t :: tr2)
    else
      match w.dbSave t with
      | .error e => (.error e, st1, tr1 ++ [.dbSave t])
      | .ok _ =>
        match FullRedisCache.load w st1 with
        | (_, st2, tr2) => (.ok (), st2, tr1 ++ .dbSave t :: tr2)

/-- `FullRedisCache.Update`: null ID → `(0, nil)` with no backend or cache
activity; backend update, abort on its error; then `load()` with its result
discarded, returning the affected row count and a nil error. -/
def FullRedisCache.Update {T I V : Type} (w : FRWorld T I V) (st : RedisSt)
    (id : I) (v : V) :
    (Except Err Int) × RedisSt × List (FREffect T I V) :=
  if w.isNullID id then (.ok 0, st, [])
  else
    match w.dbUpdate id v with
    | .error e => (.error e, st, [.dbUpdate id v])
    | .ok n =>
      match FullRedisCache.load w st with
      | (_, st', tr) => (.ok n, st', .dbUpdate id v :: tr)

/-- `FullRedisCache.Delete`: backend delete, abort on its error; then
`load()` with its result discarded, returning the deleted row count and a
nil error. -/
def FullRedisCache.Delete {T I V : Type} (w : FRWorld T I V) (st : RedisSt)
    (ids : List I) :
    (Except Err Int) × RedisSt × List (FREffect T I V) :=
  match w.dbDelete ids with
  | .error e => (.error e, st, [.dbDelete ids])
  | .ok n =>
    match FullRedisCache.load w st with
    | (_, st', tr) => (.ok n, st', .dbDelete ids :: tr)

/-! ## RedisMongo: Mongo-backed coordinator (`mongoredis/redismongo.go`).
The Go type constrains the ID type to `string`, so IDs are `String` here
and the spec-modelled `IsNullID`/`MakeCacheKey` for string IDs apply. -/

/-- The `values interface\x7b\x7d` argument of `RedisMongo.Update`: either the
supported `map[string]interface\x7b\x7d` shape or some other dynamic type. -/
inductive GoValues (V : Type) where
  | map (m : V)
  | other

/-- Side effects of `RedisMongo` operations: Mongo driver calls and the
redis `DEL` of `ClearCache`, in execution order. -/
inductive RMEffect (T V : Type) where
  | dbFindOne (id : String)
  | dbInsertOne (t : T)
  | dbReplaceOne (id : String) (t : T)
  | dbUpdateOne (id : String) (v : V)
  | redisDel (keys : List String)

/-- The world of a `RedisMongo[T, I]`: entity accessors, the Mongo
collection state at call start, `$set` semantics, injected driver/store
failures, the ObjectID the driver would assign, and configuration. -/
structure RMWorld (T V : Type) where
  getID : T → String
  setID : T → String → T
  listIndexes : T → List Index
  db0 : String → Option T
  applySet : T → V → T
  getErr1 : Option Err
  getErr2 : Option Err
  insertErr : Option Err
  replaceErr : Option Err
  updateErr : Option Err
  newID : String
  pfx : String
  table : String
  idField : String

/-- `RedisMongo.ClearCache`: primary-key cache key (omitted for a null id)
plus one key per index, deduplicated with `UniqueStrings`; the resulting
list is passed to one redis `DEL`. -/
def RedisMongo.ClearCacheKeys {T V : Type} (w : RMWorld T V) (id : String)
    (indexes : List Index) : List String :=
  UniqueStrings
    ((if IsNullID id then [] else [MakeCacheKey w.pfx w.table [(w.idField, id)]])
      ++ indexes.map (fun idx => MakeCacheKey w.pfx w.table idx))

/-- `RedisMongo.Create`: nil pointer → nil; assign a fresh ObjectID hex to
a null ID; `InsertOne`, abort on its error; then `ClearCache` on the new
entity's id and indexes (its error is discarded) and return nil. -/
def RedisMongo.Create {T V : Type} (w : RMWorld T V) (t : Option T) :
    Except Err Unit × List (RMEffect T V) :=
  match t with
  | none => (.ok (), [])
  | some t0 =>
    let t1 := if IsNullID (w.getID t0) then w.setID t0 w.newID else t0
    match w.insertErr with
    | some e => (.error e, [.dbInsertOne t1])
    | none =>
      (.ok (), [.dbInsertOne t1,
        .redisDel (RedisMongo.ClearCacheKeys w (w.getID t1) (w.listIndexes t1))])

/-- `RedisMongo.Save`: nil pointer → nil; null ID → `Create`; probe with
`Get` — on a driver error the source returns nil (sic); absent → `Create`;
present → `FindOneAndReplace`, returning its error.  No cache invalidation
happens on the replace path. -/
def RedisMongo.Save {T V : Type} (w : RMWorld T V) (t : Option T) :
    Except Err Unit × List (RMEffect T V) :=
  match t with
  | none => (.ok (), [])
  | some t0 =>
    let id := w.getID t0
    if IsNullID id then RedisMongo.Create w (some t0)
    else
      match w.getErr1 with
      | some _ => (.ok (), [.dbFindOne id])
      | none =>
        if (w.db0 id).isSome then
          match w.replaceErr with
          | some e => (.error e, [.dbFindOne id, .dbReplaceOne id t0])
          | none => (.ok (), [.dbFindOne id, .dbReplaceOne id t0])
        else
          match RedisMongo.Create w (some t0) with
          | (r, fx) => (r, .dbFindOne id :: fx)

/-- `RedisMongo.Update`: null ID → `(0, nil)` with no effect at all;
`Get` the pre-update entity (abort on driver error; an absent document
decodes to the zero value); a non-map `values` is rejected; `UpdateOne`
with `$set` (abort on its error) — it matches 1 document when the id is
present; `Get` the post-update entity (abort on driver error); `ClearCache`
on the old entity's id and the merge of old and new index sets (its error
is discarded); return the matched count with a nil error. -/
def RedisMongo.Update {T V : Type} [Inhabited T] (w : RMWorld T V) (id : String)
    (values : GoValues V) :
    Except Err Int × List (RMEffect T V) :=
  if IsNullID id then (.ok 0, [])
  else
    match w.getErr1 with
    | some e => (.error e, [.dbFindOne id])
    | none =>
      let old := (w.db0 id).getD default
      match values with
      | .other => (.error "RedisMongo.Update not support this type of update values, only support map[string]interface", [.dbFindOne id])
      | .map v =>
        match w.updateErr with
        | some e => (.error e, [.dbFindOne id, .dbUpdateOne id v])
        | none =>
          let matched : Int := if (w.db0 id).isSome then 1 else 0
          let db1 : String → Option T :=
            fun k => if k = id then (w.db0 k).map (fun t => w.applySet t v) else w.db0 k
          match w.getErr2 with
          | some e => (.error e, [.dbFindOne id, .dbUpdateOne id v, .dbFindOne id])
          | none =>
            let newObj := (db1 id).getD default
            (.ok matched,
              [.dbFindOne id, .dbUpdateOne id v, .dbFindOne id,
                .redisDel (RedisMongo.ClearCacheKeys w (w.getID old)
                  (Indexes.Merge (w.listIndexes old) (w.listIndexes newObj)))])

/-- Collect every key passed to a redis `DEL` in a `RedisMongo` trace. -/
def RMEffect.delKeys {T V : Type} : List (RMEffect T V) → List String
  | [] => []
  | .redisDel ks :: rest => ks ++ RMEffect.delKeys rest
  | _ :: rest => RMEffect.delKeys rest

/-! ## Claim theorems over RedisMongo and FullRedisCache -/

/-- Membership in the `ClearCache` key list for a non-null id: the primary
key or one of the index-derived keys. -/
theorem RedisMongo.mem_ClearCacheKeys {T V : Type} (w : RMWorld T V) (id : String)
    (idxs : List Index) (x : String) (hid : IsNullID id = false) :
    x ∈ RedisMongo.ClearCacheKeys w id idxs
      ↔ x = MakeCacheKey w.pfx w.table [(w.idField, id)]
        ∨ ∃ i, i ∈ idxs ∧ MakeCacheKey w.pfx w.table i = x := by
  simp [RedisMongo.ClearCacheKeys, mem_UniqueStrings, hid]

/-- Claim C1: an entity whose index set goes from `\x7bi1, i2\x7d` to `\x7bi2, i3\x7d`
under `RedisMongo.Update` has exactly the deduplicated key set
`\x7bprimary, key(i1), key(i2), key(i3)\x7d` deleted from the cache — the union
of the pre- and post-update index keys plus the primary key, no more, no
fewer, no duplicates. -/
theorem RedisMongo.update_invalidates_union_exactly {T V : Type} [Inhabited T]
    (w : RMWorld T V) (id : String) (v : V) (oldE : T) (i1 i2 i3 : Index)
    (hid : IsNullID id = false)
    (h1 : w.getErr1 = none) (h2 : w.getErr2 = none) (hu : w.updateErr = none)
    (hdb : w.db0 id = some oldE)
    (hoid : w.getID oldE = id)
    (hold : w.listIndexes oldE = [i1, i2])
    (hnew : w.listIndexes (w.applySet oldE v) = [i2, i3]) :
    (RMEffect.delKeys (RedisMongo.Update w id (.map v)).2).toFinset
      = {MakeCacheKey w.pfx w.table [(w.idField, id)],
         MakeCacheKey w.pfx w.table i1,
         MakeCacheKey w.pfx w.table i2,
         MakeCacheKey w.pfx w.table i3}
    ∧ (RMEffect.delKeys (RedisMongo.Update w id (.map v)).2).Nodup := by
  have htr : (RedisMongo.Update w id (.map v)).2
      = [.dbFindOne id, .dbUpdateOne id v, .dbFindOne id,
         .redisDel (RedisMongo.ClearCacheKeys w id
           (Indexes.Merge [i1, i2] [i2, i3]))] := by
    simp [RedisMongo.Update, hid, h1, h2, hu, hdb, hoid, hold, hnew]
  have hdel : RMEffect.delKeys (RedisMongo.Update w id (.map v)).2
      = RedisMongo.ClearCacheKeys w id (Indexes.Merge [i1, i2] [i2, i3]) := by
    rw [htr]; simp [RMEffect.delKeys]
  constructor
  · ext x
    rw [List.mem_toFinset, hdel, RedisMongo.mem_ClearCacheKeys w id _ x hid]
    simp only [mem_Indexes_Merge, List.mem_cons, List.not_mem_nil, or_false,
      Finset.mem_insert, Finset.mem_singleton]
    constructor
    · rintro (rfl | ⟨i, (rfl | rfl) | (rfl | rfl), rfl⟩) <;> simp
    · rintro (rfl | rfl | rfl | rfl)
      · exact Or.inl rfl
      · exact Or.inr ⟨i1, Or.inl (Or.inl rfl), rfl⟩
      · exact Or.inr ⟨i2, Or.inl (Or.inr rfl), rfl⟩
      · exact Or.inr ⟨i3, Or.inr (Or.inr rfl), rfl⟩
  · rw [hdel]
    exact nodup_UniqueStrings _

/-- Concrete entity type for witnesses: an id and one indexed field. -/
structure Ent where
  entId : String
  name : String
  deriving DecidableEq, Inhabited

/-- Concrete `RedisMongo` world for the claim C1 witness: entity `x` whose
index set is `[f/1, f/2]` before the update and `[f/2, f/3]` after it. -/
def wC1 : RMWorld Ent Nat where
  getID := Ent.entId
  setID := fun e i => { e with entId := i }
  listIndexes := fun e =>
    if e.name = "old" then [[("f", "1")], [("f", "2")]] else [[("f", "2")], [("f", "3")]]
  db0 := fun k => if k = "x" then some ⟨"x", "old"⟩ else none
  applySet := fun e _ => { e with name := "new" }
  getErr1 := none
  getErr2 := none
  insertErr := none
  replaceErr := none
  updateErr := none
  newID := "oid"
  pfx := "P"
  table := "Tab"
  idField := "Id"

/-- Claim C1 witness: the exact invalidation set evaluated on the concrete
world `wC1`. -/
theorem RedisMongo.update_invalidates_union_exactly_witness :
    (RMEffect.delKeys (RedisMongo.Update wC1 "x" (.map 7)).2).toFinset
      = {MakeCacheKey wC1.pfx wC1.table [(wC1.idField, "x")],
         MakeCacheKey wC1.pfx wC1.table [("f", "1")],
         MakeCacheKey wC1.pfx wC1.table [("f", "2")],
         MakeCacheKey wC1.pfx wC1.table [("f", "3")]}
    ∧ (RMEffect.delKeys (RedisMongo.Update wC1 "x" (.map 7)).2).Nodup :=
  RedisMongo.update_invalidates_union_exactly wC1 "x" 7 ⟨"x", "old"⟩
    [("f", "1")] [("f", "2")] [("f", "3")]
    (by decide) rfl rfl rfl (by decide) rfl (by decide) (by decide)

/-- Claim C5 (as the code actually behaves): `RedisMongo.Save` on an entity
with a non-null ID that exists in the backend performs the full replace
(`FindOneAndReplace`) and returns — it deletes no cache key at all; the
invalidation step the claim describes is absent from the code. -/
theorem RedisMongo.save_existing_no_invalidation {T V : Type}
    (w : RMWorld T V) (t0 : T)
    (hid : IsNullID (w.getID t0) = false)
    (h1 : w.getErr1 = none)
    (hex : (w.db0 (w.getID t0)).isSome = true)
    (hrep : w.replaceErr = none) :
    RedisMongo.Save w (some t0)
      = (.ok (), [.dbFindOne (w.getID t0), .dbReplaceOne (w.getID t0) t0])
    ∧ RMEffect.delKeys (RedisMongo.Save w (some t0)).2 = ([] : List String) := by
  have h : RedisMongo.Save w (some t0)
      = (.ok (), [.dbFindOne (w.getID t0), .dbReplaceOne (w.getID t0) t0]) := by
    simp [RedisMongo.Save, hid, h1, hex, hrep]
  exact ⟨h, by rw [h]; rfl⟩

/-- Concrete `RedisMongo` world for the claim C5 witness: entity `x`
exists and is indexed by its name. -/
def wC5 : RMWorld Ent Nat where
  getID := Ent.entId
  setID := fun e i => { e with entId := i }
  listIndexes := fun e => [[("name", e.name)]]
  db0 := fun k => if k = "x" then some ⟨"x", "a"⟩ else none
  applySet := fun e _ => e
  getErr1 := none
  getErr2 := none
  insertErr := none
  replaceErr := none
  updateErr := none
  newID := "oid"
  pfx := "P"
  table := "Tab"
  idField := "Id"

/-- Claim C5 witness: saving the existing entity `x` replaces it and
deletes no cache key. -/
theorem RedisMongo.save_existing_no_invalidation_witness :
    RedisMongo.Save wC5 (some ⟨"x", "a"⟩)
      = (.ok (), [.dbFindOne (wC5.getID ⟨"x", "a"⟩), .dbReplaceOne (wC5.getID ⟨"x", "a"⟩) ⟨"x", "a"⟩])
    ∧ RMEffect.delKeys (RedisMongo.Save wC5 (some ⟨"x", "a"⟩)).2 = ([] : List String) :=
  RedisMongo.save_existing_no_invalidation wC5 ⟨"x", "a"⟩ (by decide) rfl (by decide) rfl

/-- Claim C10: a null (zero-value) ID makes `Update` return `(0, nil)`
immediately — no backend query or write, no cache effect, and the cached
state exactly as before — in both `FullRedisCache.Update` and
`RedisMongo.Update`. -/
theorem update_null_id_noop {T I V T2 V2 : Type} [Inhabited T2]
    (w : FRWorld T I V) (st : RedisSt) (id : I) (v : V)
    (w2 : RMWorld T2 V2) (values : GoValues V2)
    (hnull : w.isNullID id = true) :
    FullRedisCache.Update w st id v = (.ok 0, st, [])
    ∧ RedisMongo.Update w2 "" values = (.ok 0, []) := by
  constructor
  · simp [FullRedisCache.Update, hnull]
  · rfl

/-- General-purpose concrete `FullRedisCache` world: string entities that
are their own IDs and serialize to themselves, one backend row `a`. -/
def wFR : FRWorld String String Nat where
  getID := fun s => s
  stringifyID := fun s => s
  isNullID := fun s => decide (s = "")
  marshal := fun s => .ok s
  unmarshal := fun s => (s, none)
  dbListAll := .ok ["a"]
  dbCreate := fun _ => .ok ()
  dbSave := fun _ => .ok ()
  dbUpdate := fun _ _ => .ok 1
  dbDelete := fun _ => .ok 1
  pfx := "p"
  table := "t"

/-- Claim C10 witness: the null-ID no-op evaluated on concrete worlds. -/
theorem update_null_id_noop_witness :
    FullRedisCache.Update wFR (fun _ => none) "" 0 = (.ok 0, (fun _ => none), [])
    ∧ RedisMongo.Update wC1 "" (.map 7) = (.ok 0, []) :=
  update_null_id_noop wFR (fun _ => none) "" 0 wC1 (.map 7) rfl

/-- Claim C4: when the backend write fails, `Create`, `Update` and `Delete`
return the backend error with the cached state exactly as before and no
cache effect of any kind — the only effect in the trace is the failed
backend call itself; likewise `RedisMongo.Create` aborts before its
`ClearCache`. -/
theorem cache_untouched_on_backend_error {T I V T2 V2 : Type}
    (w : FRWorld T I V) (st : RedisSt) (t : T) (id : I) (v : V) (ids : List I)
    (w2 : RMWorld T2 V2) (t0 : T2) (e1 e2 e3 e4 : Err) :
    (w.dbCreate t = .error e1 →
      FullRedisCache.Create w st t = (.error e1, st, [.dbCreate t]))
    ∧ (w.isNullID id = false → w.dbUpdate id v = .error e2 →
        FullRedisCache.Update w st id v = (.error e2, st, [.dbUpdate id v]))
    ∧ (w.dbDelete ids = .error e3 →
        FullRedisCache.Delete w st ids = (.error e3, st, [.dbDelete ids]))
    ∧ (IsNullID (w2.getID t0) = false → w2.insertErr = some e4 →
        RedisMongo.Create w2 (some t0) = (.error e4, [.dbInsertOne t0])) := by
  refine ⟨?_, ?_, ?_, ?_⟩
  · intro h
    simp [FullRedisCache.Create, h]
  · intro hn h
    simp [FullRedisCache.Update, hn, h]
  · intro h
    simp [FullRedisCache.Delete, h]
  · intro hn h
    simp [RedisMongo.Create, hn, h]

/-- Concrete `FullRedisCache` world whose backend writes all fail. -/
def wFRerr : FRWorld String String Nat where
  getID := fun s => s
  stringifyID := fun s => s
  isNullID := fun s => decide (s = "")
  marshal := fun s => .ok s
  unmarshal := fun s => (s, none)
  dbListAll := .ok ["a"]
  dbCreate := fun _ => .error "cfail"
  dbSave := fun _ => .error "sfail"
  dbUpdate := fun _ _ => .error "ufail"
  dbDelete := fun _ => .error "dfail"
  pfx := "p"
  table := "t"

/-- Concrete `RedisMongo` world whose `InsertOne` fails. -/
def wRMerr : RMWorld Ent Nat where
  getID := Ent.entId
  setID := fun e i => { e with entId := i }
  listIndexes := fun e => [[("name", e.name)]]
  db0 := fun _ => none
  applySet := fun e _ => e
  getErr1 := none
  getErr2 := none
  insertErr := some "ifail"
  replaceErr := none
  updateErr := none
  newID := "oid"
  pfx := "P"
  table := "Tab"
  idField := "Id"

/-- Claim C4 witness: the four mutation shapes evaluated on failing
backends leave the cache untouched. -/
theorem cache_untouched_on_backend_error_witness :
    FullRedisCache.Create wFRerr (fun _ => none) "a"
      = (.error "cfail", (fun _ => none), [.dbCreate "a"])
    ∧ FullRedisCache.Update wFRerr (fun _ => none) "x" 0
      = (.error "ufail", (fun _ => none), [.dbUpdate "x" 0])
    ∧ FullRedisCache.Delete wFRerr (fun _ => none) ["x"]
      = (.error "dfail", (fun _ => none), [.dbDelete ["x"]])
    ∧ RedisMongo.Create wRMerr (some (⟨"x", "a"⟩ : Ent))
      = (.error "ifail", [.dbInsertOne ⟨"x", "a"⟩]) := by
  obtain ⟨a, b, c, d⟩ := cache_untouched_on_backend_error wFRerr (fun _ => none)
    "a" "x" 0 ["x"] wRMerr ⟨"x", "a"⟩ "cfail" "ufail" "dfail" "ifail"
  exact ⟨a rfl, b rfl rfl, c rfl, d rfl rfl⟩

/-- Concrete `FullRedisCache` world whose backend writes succeed but whose
full reload (`ListAll`) fails. -/
def wC3 : FRWorld String String Nat where
  getID := fun s => s
  stringifyID := fun s => s
  isNullID := fun s => decide (s = "")
  marshal := fun s => .ok s
  unmarshal := fun s => (s, none)
  dbListAll := .error "down"
  dbCreate := fun _ => .ok ()
  dbSave := fun _ => .ok ()
  dbUpdate := fun _ _ => .ok 1
  dbDelete := fun _ => .ok 1
  pfx := "p"
  table := "t"

/-- Claim C3 counterexample: in a world where the backend update succeeds
and the reload fails, `FullRedisCache.Update` returns `(1, nil)` — no error
is surfaced, contradicting the claim for the update mutation. -/
theorem FullRedisCache.update_reload_failure_counterexample :
    wC3.dbUpdate "x" 0 = .ok 1
    ∧ (FullRedisCache.load wC3 (fun _ => none)).1 = .error "down"
    ∧ (FullRedisCache.Update wC3 (fun _ => none) "x" 0).1 = .ok 1 :=
  ⟨rfl, rfl, rfl⟩

/-- A cache state holding the collection hash of `wC3`/`wFR` with the
single entity `a` (a cache hit for `Get a`). -/
def stA3 : RedisSt :=
  fun k => if k = FullRedisCache.CacheKey "p" "t" then some [("a", "a")] else none

/-- Claim C3 as amended: after a successful backend write, `Create` returns
exactly the reload's result (surfacing its failure), while `Save`, `Update`
and `Delete` return success regardless of the reload's outcome — the
reload failure is ignored, not surfaced. -/
theorem FullRedisCache.reload_failure_surfacing_amended {T I V : Type} [Inhabited T]
    (w : FRWorld T I V) (st st1 : RedisSt) :
    (∀ t, w.dbCreate t = .ok () →
      (FullRedisCache.Create w st t).1 = (FullRedisCache.load w st).1)
    ∧ (∀ t r tr1, FullRedisCache.Get w st (w.getID t) = ((r, true, none), st1, tr1) →
        w.isNullID (w.getID t) = false → w.dbSave t = .ok () →
        (FullRedisCache.Save w st t).1 = .ok ())
    ∧ (∀ id v n, w.isNullID id = false → w.dbUpdate id v = .ok n →
        (FullRedisCache.Update w st id v).1 = .ok n)
    ∧ (∀ ids n, w.dbDelete ids = .ok n →
        (FullRedisCache.Delete w st ids).1 = .ok n) := by
  refine ⟨?_, ?_, ?_, ?_⟩
  · intro t h
    simp [FullRedisCache.Create, h]
  · intro t r tr1 hget hn hs
    simp [FullRedisCache.Save, hget, hn, hs]
  · intro id v n hn h
    simp [FullRedisCache.Update, hn, h]
  · intro ids n h
    simp [FullRedisCache.Delete, h]

/-- Claim C3 amended witness: all four mutations evaluated in the
failing-reload world `wC3`: `Create` surfaces the reload error, the rest
report success. -/
theorem FullRedisCache.reload_failure_surfacing_amended_witness :
    (FullRedisCache.Create wC3 (fun _ => none) "a").1
      = (FullRedisCache.load wC3 (fun _ => none)).1
    ∧ (FullRedisCache.Save wC3 stA3 "a").1 = .ok ()
    ∧ (FullRedisCache.Update wC3 (fun _ => none) "x" 0).1 = .ok 1
    ∧ (FullRedisCache.Delete wC3 (fun _ => none) ["x"]).1 = .ok 1 := by
  obtain ⟨a, _, c, d⟩ :=
    FullRedisCache.reload_failure_surfacing_amended wC3 (fun _ => none) (fun _ => none)
  obtain ⟨_, b, _, _⟩ :=
    FullRedisCache.reload_failure_surfacing_amended wC3 stA3 stA3
  refine ⟨a "a" rfl, ?_, c "x" 0 1 rfl rfl, d ["x"] 1 rfl⟩
  exact b "a" "a" [.redisHGet (FullRedisCache.CacheKey "p" "t") "a"] rfl rfl rfl

/-- Claim C6 (as the code actually behaves): `List` does ensure the
snapshot is loaded — but an id absent from the loaded snapshot makes the
decode loop of `HMGetJson` perform the type assertion `v.(string)` on a nil
interface, a runtime panic, while ids present in the snapshot decode
normally. -/
theorem FullRedisCache.list_absent_id_panics :
    (FullRedisCache.ListIds wFR (fun _ => none) ["a", "b"]).1 = GoRes.panic
    ∧ (FullRedisCache.ListIds wFR (fun _ => none) ["a"]).1 = .ret (["a"], none) :=
  ⟨rfl, rfl⟩
